import Mathlib

/-!
# memebase: data access and query construction

A shallow embedding of `internal/data/filters.go` and `internal/data/memes.go`.

* Go `int` is taken at 64 bits and `int32` at 32 bits; every arithmetic result is
  wrapped to two's complement explicitly (`wrapInt64`, `wrapInt32`).
* A Go function that can panic returns an `Outcome`.
* Go strings are Lean strings; the `strings` helpers are defined on character lists.
* The MongoDB collection is a list of documents; the driver calls the code makes
  (`InsertOne`, `UpdateOne`, `$sample`, `$regex` matching) are modelled on that list.
-/

namespace Memebase

/-! ## Machine integers and panics -/

/-- Two's complement wrap of an exact integer to Go's 64-bit `int`. -/
def wrapInt64 (x : Int) : Int := (x + 2 ^ 63) % 2 ^ 64 - 2 ^ 63

/-- Two's complement wrap of an exact integer to Go's `int32`. -/
def wrapInt32 (x : Int) : Int := (x + 2 ^ 31) % 2 ^ 32 - 2 ^ 31

/-- Result of a Go call that either returns or panics. -/
inductive Outcome (α : Type) where
  | ok (value : α)
  | panic (msg : String)
  deriving DecidableEq, Repr

/-! ## Package `strings` -/

/-- Go `strings.HasPrefix`. -/
def HasPrefix (s pre : String) : Bool := pre.toList.isPrefixOf s.toList

/-- Go `strings.TrimPrefix`: `s` without the leading `pre`, or `s` itself. -/
def TrimPrefix (s pre : String) : String :=
  if HasPrefix s pre then String.mk (s.toList.drop pre.toList.length) else s

/-! ## Package `validator` -/

/-- Modelled from the spec: `validator.Validator` (package `internal/validator` is not
among the sources). It holds the field errors of a validation, keyed by field name. -/
structure Validator where
  Errors : List (String × String)

/-- Modelled from the spec: `validator.New`, a validator with no error recorded. -/
def Validator.New : Validator := ⟨[]⟩

/-- Modelled from the spec: `Validator.Valid`, no error has been recorded. -/
def Validator.Valid (v : Validator) : Bool := v.Errors.isEmpty

/-- Modelled from the spec: `Validator.AddError` records `message` under `key`; a key
holds one message, the first recorded. -/
def Validator.AddError (v : Validator) (key message : String) : Validator :=
  if v.Errors.any (fun e => e.1 == key) then v else ⟨v.Errors ++ [(key, message)]⟩

/-- Modelled from the spec: `Validator.Check` records the error when the checked
condition does not hold. -/
def Validator.Check (v : Validator) (ok : Bool) (key message : String) : Validator :=
  if ok then v else v.AddError key message

/-- Modelled from the spec: `validator.PermittedValue`, membership of `value` in the
permitted values. -/
def PermittedValue (value : String) (permitted : List String) : Bool :=
  permitted.contains value

/-- The validator holds an error for field `key`. -/
def Validator.hasError (v : Validator) (key : String) : Prop :=
  ∃ message, (key, message) ∈ v.Errors

/-! ## `filters.go` -/

/-- Go `Filters`; the field `Sort` is named `SortBy` here (`Sort` is reserved). -/
structure Filters where
  Page : Int
  PageSize : Int
  SortBy : String
  SortSafelist : List String

/-- Go `ValidateFilters`. -/
def ValidateFilters (v : Validator) (f : Filters) : Validator :=
  let v := v.Check (decide (f.Page > 0)) "page" "must be greater than 0"
  let v := v.Check (decide (f.Page ≤ 1000)) "page" "must be a maximum of 1 thousand"
  let v := v.Check (decide (f.PageSize > 0)) "page_size" "must be greater than 0"
  let v := v.Check (decide (f.PageSize ≤ 10)) "page_size" "must be a maximum of 10"
  v.Check (PermittedValue f.SortBy f.SortSafelist) "sort" "invalid sort value"

/-- The safelist `listMemesHandler` puts in `input.Filters.SortSafelist`. -/
def listMemesHandlerSafelist : List String :=
  ["artist", "title", "created", "-artist", "-title", "-created"]

/-- The `for ... range f.SortSafelist` loop of `sortField`, with the panic that
follows it. -/
def sortFieldLoop (sort : String) : List String → Outcome String
  | [] => .panic ("unsafe sort parameter: " ++ sort)
  | safeValue :: rest =>
    if sort = safeValue then .ok (TrimPrefix sort "-") else sortFieldLoop sort rest

/-- Go `Filters.sortField`. -/
def Filters.sortField (f : Filters) : Outcome String :=
  sortFieldLoop f.SortBy f.SortSafelist

/-- Go `Filters.sortDirection`. -/
def Filters.sortDirection (f : Filters) : Int :=
  if HasPrefix f.SortBy "-" then -1 else 1

/-- Go `Filters.limit`. -/
def Filters.limit (f : Filters) : Int := f.PageSize

/-- Go `Filters.offset`. -/
def Filters.offset (f : Filters) : Int :=
  wrapInt64 (wrapInt64 (f.Page - 1) * f.PageSize)

/-- Go `Metadata`. -/
structure Metadata where
  CurrentPage : Int
  PageSize : Int
  FirstPage : Int
  LastPage : Int
  TotalRecords : Int
  deriving DecidableEq, Repr

/-- The zero value `Metadata{}`. -/
def Metadata.zero : Metadata := ⟨0, 0, 0, 0, 0⟩

/-- Go `Metadata.Calculate`, returning the receiver after the call. The integer
division panics on a zero `pageSize`. -/
def Metadata.Calculate (m : Metadata)
    (filteredRecordCount totalRecords page pageSize : Int) : Outcome Metadata :=
  if filteredRecordCount = 0 then .ok m
  else if pageSize = 0 then .panic "runtime error: integer divide by zero"
  else .ok
    { CurrentPage := page
      PageSize := pageSize
      FirstPage := 1
      LastPage :=
        wrapInt64 (Int.tdiv (wrapInt64 (wrapInt64 (totalRecords + pageSize) - 1)) pageSize)
      TotalRecords := totalRecords }

/-! ## BSON values and the aggregation pipeline -/

/-- The BSON values the package builds. -/
inductive Bson where
  | str (s : String)
  | int (n : Int)
  | regex (pattern options : String)
  | doc (elems : List (String × Bson))

/-- A BSON document: `bson.D`, and `bson.M` with its keys in insertion order. -/
abbrev BsonDoc := List (String × Bson)

/-- Go `Filters.GetAllAggregationPipeline`. -/
def Filters.GetAllAggregationPipeline (f : Filters) (matchDoc : BsonDoc) :
    Outcome (List BsonDoc) :=
  let matchStage : BsonDoc := [("$match", .doc matchDoc)]
  match f.sortField with
  | .panic msg => .panic msg
  | .ok sortField =>
    let sortDirection := f.sortDirection
    let sortStage : BsonDoc :=
      [("$sort", .doc [(sortField, .int sortDirection), ("_id", .int 1)])]
    let skipStage : BsonDoc := [("$skip", .int f.offset)]
    let limitStage : BsonDoc := [("$limit", .int f.limit)]
    .ok [matchStage, sortStage, skipStage, limitStage]

/-! ## `models.go` and `memes.go`: records and the collection -/

/-- The errors the package returns: the two sentinel errors of `models.go`, and an
error handed back by a driver call. -/
inductive Error where
  | ErrDocNotFound
  | ErrEditConflict
  | driver (msg : String)
  deriving DecidableEq, Repr

/-- Go `primitive.ObjectID`: twelve bytes. -/
abbrev ObjectID := List Nat

/-- Value of one hexadecimal digit, as `encoding/hex` reads it (either letter case). -/
def hexDigit (c : Char) : Option Nat :=
  if 48 ≤ c.toNat ∧ c.toNat ≤ 57 then some (c.toNat - 48)
  else if 97 ≤ c.toNat ∧ c.toNat ≤ 102 then some (c.toNat - 87)
  else if 65 ≤ c.toNat ∧ c.toNat ≤ 70 then some (c.toNat - 55)
  else none

/-- Go `hex.Decode`: two digits a byte. -/
def hexDecode : List Char → Option (List Nat)
  | [] => some []
  | [_] => none
  | a :: b :: rest =>
    match hexDigit a, hexDigit b, hexDecode rest with
    | some x, some y, some bytes => some ((16 * x + y) :: bytes)
    | _, _, _ => none

/-- Go `primitive.ObjectIDFromHex`: the string must be 24 hexadecimal digits. (A string
that decodes has one byte per character, so the character count stands for `len`.) -/
def ObjectIDFromHex (s : String) : Option ObjectID :=
  if s.toList.length = 24 then hexDecode s.toList else none

/-- One lower-case hexadecimal digit. -/
def hexChar (n : Nat) : Char :=
  if n < 10 then Char.ofNat (48 + n) else Char.ofNat (87 + n)

/-- Go `ObjectID.Hex`. -/
def ObjectID.Hex (id : ObjectID) : String :=
  String.mk (id.flatMap fun b => [hexChar (b / 16), hexChar (b % 16)])

/-- Go `Meme`. `Created` is an instant (`time.Time`), in nanoseconds since the Unix
epoch; `Version` is an `int32`. -/
structure Meme where
  ID : String
  Created : Int
  Artist : String
  Title : String
  B64 : String
  Version : Int
  deriving DecidableEq, Repr

/-- Go `MongoEditMeme`. -/
structure MongoEditMeme where
  Artist : String
  Created : Int
  Title : String
  B64 : String
  Version : Int
  deriving DecidableEq, Repr

/-- The zero `time.Time`, January 1 of year 1 UTC, in nanoseconds since the Unix
epoch. -/
def zeroTime : Int := -62135596800 * 1000000000

/-- The zero value `MongoEditMeme{}`. -/
def MongoEditMeme.zero : MongoEditMeme := ⟨"", zeroTime, "", "", 0⟩

/-- Go `Meme.ToEditMeme`. -/
def Meme.ToEditMeme (m : Meme) : MongoEditMeme :=
  let updateMeme := MongoEditMeme.zero
  let updateMeme := { updateMeme with Created := m.Created }
  let updateMeme := if m.Artist ≠ "" then { updateMeme with Artist := m.Artist } else updateMeme
  let updateMeme := if m.Title ≠ "" then { updateMeme with Title := m.Title } else updateMeme
  let updateMeme := if m.B64 ≠ "" then { updateMeme with B64 := m.B64 } else updateMeme
  let updateMeme := if m.Version ≠ 0 then { updateMeme with Version := m.Version } else updateMeme
  updateMeme

/-- A document of the `memes` collection: the store-facing record
`{_id, created, artist, title, b64, version}`. `created` is a BSON datetime, in
milliseconds since the Unix epoch. -/
structure Document where
  _id : ObjectID
  artist : String
  created : Int
  title : String
  b64 : String
  version : Int
  deriving DecidableEq, Repr

/-- The `memes` collection. -/
abbrev Collection := List Document

/-- The document the driver writes for a `MongoEditMeme` under a given `_id`. The struct
tags of `MongoEditMeme` (`bson:"artist"` and so on, none with `omitempty`) make the
driver marshal all five fields, zero values included; a `time.Time` is marshalled as
a BSON datetime, its nanoseconds rounded down to the millisecond. -/
def MongoEditMeme.toDocument (e : MongoEditMeme) (id : ObjectID) : Document :=
  { _id := id, artist := e.Artist, created := e.Created / 1000000, title := e.Title,
    b64 := e.B64, version := e.Version }

/-- Driver `InsertOne` of a `MongoEditMeme`: the document is stored under the
`ObjectID` the driver generated for it. -/
def InsertOne (coll : Collection) (insertedID : ObjectID) (e : MongoEditMeme) : Collection :=
  coll ++ [e.toDocument insertedID]

/-- The filter `bson.D{{"_id", objID}, {"version", version}}` of `Update`. -/
structure UpdateFilter where
  _id : ObjectID
  version : Int

/-- A document satisfies the filter of `Update`. -/
def UpdateFilter.holds (q : UpdateFilter) (d : Document) : Bool :=
  decide (d._id = q._id) && decide (d.version = q.version)

/-- Driver `UpdateOne` with the update `{"$set": updateMeme}`: the first document that
satisfies the filter gets the five marshalled fields of `updateMeme`; the result is
`MatchedCount` and the collection afterwards. -/
def UpdateOne : Collection → UpdateFilter → MongoEditMeme → Nat × Collection
  | [], _, _ => (0, [])
  | d :: rest, q, e =>
    if q.holds d then (1, e.toDocument d._id :: rest)
    else ((UpdateOne rest q e).1, d :: (UpdateOne rest q e).2)

/-- What a call on a `*Meme` leaves behind: the returned error, the caller's record
and the collection. -/
structure CallResult where
  err : Option Error
  meme : Meme
  coll : Collection
  deriving DecidableEq, Repr

/-- Go `MemeModel.Insert`. `now` is `time.Now()`; `driverErr` is the error of the
`InsertOne` call, if it fails; `insertedID` is `res.InsertedID`, which the driver
generates as an `ObjectID` for a document without `_id`, so the type assertion holds. -/
def Insert (driverErr : Option Error) (now : Int) (insertedID : ObjectID)
    (coll : Collection) (meme : Meme) : CallResult :=
  let meme := { meme with Created := now, Version := 1 }
  match driverErr with
  | some e => ⟨some e, meme, coll⟩
  | none =>
    let coll := InsertOne coll insertedID meme.ToEditMeme
    ⟨none, { meme with ID := insertedID.Hex }, coll⟩

/-- Go `MemeModel.Update`. `driverErr` is the error of the `UpdateOne` call, if it
fails. -/
def Update (driverErr : Option Error) (coll : Collection) (meme : Meme) : CallResult :=
  match ObjectIDFromHex meme.ID with
  | none => ⟨some .ErrDocNotFound, meme, coll⟩
  | some objID =>
    let filter : UpdateFilter := ⟨objID, meme.Version⟩
    let meme := { meme with Version := wrapInt32 (meme.Version + 1) }
    let updateMeme := meme.ToEditMeme
    match driverErr with
    | some e => ⟨some e, meme, coll⟩
    | none =>
      let res := UpdateOne coll filter updateMeme
      if res.1 = 0 then ⟨some .ErrEditConflict, meme, res.2⟩ else ⟨none, meme, res.2⟩

/-- Decoding a stored document into a `Meme`. -/
def Document.toMeme (d : Document) : Meme :=
  { ID := d._id.Hex, Created := d.created * 1000000, Artist := d.artist, Title := d.title,
    B64 := d.b64, Version := d.version }

/-- The stage `{"$sample": {"size": 1}}`: one document of the collection, chosen by
`pick`, and none of an empty collection. -/
def sample (coll : Collection) (pick : Nat) : List Document :=
  (coll[pick % coll.length]?).toList

/-- Go `MemeModel.GetRandom`. `driverErr` is the error of `Aggregate` or `cursor.All`,
if one fails; indexing `memes[0]` panics on an empty slice. -/
def GetRandom (driverErr : Option Error) (coll : Collection) (pick : Nat) :
    Outcome (Except Error Meme) :=
  match driverErr with
  | some e => .ok (.error e)
  | none =>
    let memes := (sample coll pick).map Document.toMeme
    match memes with
    | [] => .panic "runtime error: index out of range [0] with length 0"
    | m :: _ => .ok (.ok m)

/-! ## `cmd/api/memes.go`: the caller of `Update` -/

/-- Go `ValidateMeme`; `len` counts bytes. -/
def ValidateMeme (v : Validator) (meme : Meme) : Validator :=
  let v := v.Check (decide (meme.Artist ≠ "")) "artist" "must be provided"
  let v := v.Check (decide (meme.Artist.utf8ByteSize ≤ 64)) "artist"
    "must not be more than 64 bytes long"
  let v := v.Check (decide (meme.Title ≠ "")) "title" "must be provided"
  let v := v.Check (decide (meme.Title.utf8ByteSize ≤ 64)) "title"
    "must not be more than 64 bytes long"
  v.Check (decide (meme.B64 ≠ "")) "b64" "must be provided"

/-- Driver `FindOne` with the filter `{"_id": objID}`: the first document of that id. -/
def FindOne (coll : Collection) (objID : ObjectID) : Option Document :=
  coll.find? (fun d => decide (d._id = objID))

/-- Go `MemeModel.Get`. `driverErr` is an error of `FindOne(...).Decode` other than
`mongo.ErrNoDocuments`, if the call fails. -/
def Get (driverErr : Option Error) (coll : Collection) (id : String) : Except Error Meme :=
  match ObjectIDFromHex id with
  | none => .error .ErrDocNotFound
  | some objID =>
    match driverErr with
    | some e => .error e
    | none =>
      match FindOne coll objID with
      | none => .error .ErrDocNotFound
      | some d => .ok { d.toMeme with ID := id }

/-- Go `strconv.Itoa`. -/
def Itoa (n : Int) : String := toString n

/-- The decoded body of an update request: a field is `none` when the request does
not carry it. The handler assigns `input.Meme` to the payload of the record (the
field `B64` of `data.Meme`). -/
structure UpdateInput where
  Artist : Option String
  Title : Option String
  Meme : Option String

/-- The response a handler writes. -/
inductive Response where
  | notFound
  | serverError (err : Error)
  | editConflict
  | badRequest (msg : String)
  | failedValidation (errors : List (String × String))
  | ok (meme : Meme)
  deriving DecidableEq, Repr

/-- Go `updateMemeHandler`, from the parsed request on: `idParam` is the result of
`readIDParam` (`none` when it fails), `expectedVersion` the header
`X-Expected-Version`, `body` the result of `readJSON`; `getErr` and `updateErr` are
the driver errors of the two store calls, if they fail. The result is the response
and the collection afterwards. -/
def updateMemeHandler (getErr updateErr : Option Error) (coll : Collection)
    (idParam : Option String) (expectedVersion : String) (body : Except String UpdateInput) :
    Response × Collection :=
  match idParam with
  | none => (.notFound, coll)
  | some id =>
    match Get getErr coll id with
    | .error e => (if e = .ErrDocNotFound then .notFound else .serverError e, coll)
    | .ok meme =>
      if expectedVersion ≠ "" ∧ Itoa meme.Version ≠ expectedVersion then (.editConflict, coll)
      else
        match body with
        | .error msg => (.badRequest msg, coll)
        | .ok input =>
          let meme := match input.Artist with
            | some artist => { meme with Artist := artist }
            | none => meme
          let meme := match input.Title with
            | some title => { meme with Title := title }
            | none => meme
          let meme := match input.Meme with
            | some payload => { meme with B64 := payload }
            | none => meme
          let v := ValidateMeme Validator.New meme
          if v.Valid = false then (.failedValidation v.Errors, coll)
          else
            let res := Update updateErr coll meme
            match res.err with
            | some e =>
              (if e = .ErrEditConflict then .editConflict else .serverError e, res.coll)
            | none => (.ok res.meme, res.coll)

/-! ## The filter of `GetAll` and how the store matches it -/

/-- Assignment `m[key] = value` on a `bson.M`. -/
def BsonDoc.set (m : BsonDoc) (key : String) (value : Bson) : BsonDoc :=
  if m.any (fun e => e.1 == key) then m.map (fun e => if e.1 == key then (key, value) else e)
  else m ++ [(key, value)]

/-- Go `GetAllFilter`. -/
def GetAllFilter (artist title : String) : BsonDoc :=
  let filter : BsonDoc := []
  let filter := if artist ≠ "" then filter.set "artist" (.str artist) else filter
  let filter :=
    if title ≠ "" then filter.set "title" (.doc [("$regex", .regex title "i")]) else filter
  filter

/-- One element of a regular expression of the modelled fragment. -/
inductive RegexAtom where
  | lit (c : Char)
  | anyChar
  deriving DecidableEq, Repr

/-- The characters with a meaning of their own in a regular expression. -/
def regexMeta : List Char :=
  ['\\', '^', '$', '.', '|', '?', '*', '+', '(', ')', '[', ']', '\x7b', '\x7d']

/-- Reading a pattern of the modelled fragment: `.` stands for any character, a
character that is not a metacharacter for itself; any other metacharacter puts the
pattern outside the fragment (`none`), and so does a NUL character, which a BSON
regular expression (a C string) cannot carry. -/
def parseRegex : List Char → Option (List RegexAtom)
  | [] => some []
  | c :: rest =>
    if c = '.' then (parseRegex rest).map (fun atoms => RegexAtom.anyChar :: atoms)
    else if c ∈ regexMeta ∨ c.toNat = 0 then none
    else (parseRegex rest).map (fun atoms => RegexAtom.lit c :: atoms)

/-- One atom against one character. `caseless` is the option `i`; `fold` is the
store's case folding: two characters differ at most in letter case when they fold
to the same character. -/
def RegexAtom.accepts (fold : Char → Char) (caseless : Bool) : RegexAtom → Char → Bool
  | .lit c, d => if caseless then fold c == fold d else c == d
  | .anyChar, d => d != '\n'

/-- The atoms match a prefix of the subject. -/
def matchHere (fold : Char → Char) (caseless : Bool) : List RegexAtom → List Char → Bool
  | [], _ => true
  | _ :: _, [] => false
  | a :: atoms, d :: ds => a.accepts fold caseless d && matchHere fold caseless atoms ds

/-- Unanchored search: the atoms match at some position of the subject. -/
def searchFrom (fold : Char → Char) (caseless : Bool) (atoms : List RegexAtom) :
    List Char → Bool
  | [] => matchHere fold caseless atoms []
  | d :: ds => matchHere fold caseless atoms (d :: ds) || searchFrom fold caseless atoms ds

/-- The store's `$regex` match of `pattern` with `options` against a string, for the
options `""` and `"i"` and the patterns of the modelled fragment. -/
def regexSearch (fold : Char → Char) (pattern options subject : String) : Option Bool :=
  if options = "i" ∨ options = "" then
    (parseRegex pattern.toList).map
      (fun atoms => searchFrom fold (decide (options = "i")) atoms subject.toList)
  else none

/-- The string field of a document a filter key names. -/
def Document.field (d : Document) (key : String) : Option String :=
  if key = "artist" then some d.artist
  else if key = "title" then some d.title
  else if key = "b64" then some d.b64
  else none

/-- The store's test of one condition on a string field: equality with a string, or
`{"$regex": ...}`. Other conditions are outside the model (`none`). -/
def matchesCondition (fold : Char → Char) (stored : String) : Bson → Option Bool
  | .str v => some (decide (stored = v))
  | .doc [(op, .regex pattern options)] =>
    if op = "$regex" then regexSearch fold pattern options stored else none
  | _ => none

/-- The store's test of a filter document on a stored document: every condition
holds. -/
def matchesFilter (fold : Char → Char) (d : Document) : BsonDoc → Option Bool
  | [] => some true
  | (key, cond) :: rest =>
    match d.field key with
    | none => none
    | some stored =>
      match matchesCondition fold stored cond, matchesFilter fold d rest with
      | some a, some b => some (a && b)
      | _, _ => none

/-- Reference notion: `s` contains `t` as a substring at some position, ignoring
letter case (characters compared after case folding). -/
def containsIgnoreCase (fold : Char → Char) (s t : String) : Prop :=
  t.toList.map fold <:+: s.toList.map fold

/-- The text has no regular-expression metacharacter and no NUL character. -/
def plainText (t : String) : Prop :=
  ∀ c ∈ t.toList, c ∉ regexMeta ∧ c.toNat ≠ 0

/-! ## Helper lemmas -/

theorem wrapInt64_of_range (x : Int) (h1 : -(2 ^ 63) ≤ x) (h2 : x < 2 ^ 63) :
    wrapInt64 x = x := by
  unfold wrapInt64
  omega

theorem wrapInt32_of_range (x : Int) (h1 : -(2 ^ 31) ≤ x) (h2 : x < 2 ^ 31) :
    wrapInt32 x = x := by
  unfold wrapInt32
  omega

theorem hasError_AddError (v : Validator) (key message k : String) :
    (v.AddError key message).hasError k ↔ v.hasError k ∨ key = k := by
  unfold Validator.AddError
  split
  · rename_i h
    constructor
    · exact fun hk => Or.inl hk
    · rintro (hk | rfl)
      · exact hk
      · obtain ⟨e, he, hkey⟩ := List.any_eq_true.mp h
        refine ⟨e.2, ?_⟩
        have : e.1 = key := by simpa using hkey
        rw [← this]
        exact he
  · simp only [Validator.hasError, List.mem_append, List.mem_singleton, Prod.mk.injEq]
    constructor
    · rintro ⟨m, hm | ⟨hk, _⟩⟩
      · exact Or.inl ⟨m, hm⟩
      · exact Or.inr hk.symm
    · rintro (⟨m, hm⟩ | rfl)
      · exact ⟨m, Or.inl hm⟩
      · exact ⟨message, Or.inr ⟨rfl, rfl⟩⟩

theorem hasError_Check (v : Validator) (ok : Bool) (key message k : String) :
    (v.Check ok key message).hasError k ↔ v.hasError k ∨ (ok = false ∧ key = k) := by
  unfold Validator.Check
  cases ok
  · simp [hasError_AddError]
  · simp

theorem not_hasError_New (k : String) : ¬ Validator.New.hasError k := by
  simp [Validator.hasError, Validator.New]

theorem Valid_Check (v : Validator) (ok : Bool) (key message : String) :
    (v.Check ok key message).Valid = (v.Valid && ok) := by
  unfold Validator.Check Validator.AddError Validator.Valid
  cases ok
  · simp only [Bool.false_eq_true, if_false, Bool.and_false]
    split
    · rename_i h
      obtain ⟨e, he, _⟩ := List.any_eq_true.mp h
      cases hE : v.Errors with
      | nil => rw [hE] at he; cases he
      | cons a l => rfl
    · cases hE : v.Errors <;> rfl
  · simp

theorem Valid_ValidateFilters (f : Filters) :
    (ValidateFilters Validator.New f).Valid = true ↔
      (1 ≤ f.Page ∧ f.Page ≤ 1000 ∧ 1 ≤ f.PageSize ∧ f.PageSize ≤ 10 ∧
        f.SortBy ∈ f.SortSafelist) := by
  have hc : f.SortSafelist.contains f.SortBy = true ↔ f.SortBy ∈ f.SortSafelist := by simp
  simp only [ValidateFilters, Valid_Check, PermittedValue]
  simp only [Validator.New, Validator.Valid, List.isEmpty_nil, Bool.true_and, Bool.and_eq_true,
    decide_eq_true_eq, hc]
  constructor
  · rintro ⟨⟨⟨⟨h1, h2⟩, h3⟩, h4⟩, h5⟩
    exact ⟨by omega, h2, by omega, h4, h5⟩
  · rintro ⟨h1, h2, h3, h4, h5⟩
    exact ⟨⟨⟨⟨by omega, h2⟩, by omega⟩, h4⟩, h5⟩

theorem sortFieldLoop_of_mem (sort : String) (safelist : List String) (h : sort ∈ safelist) :
    sortFieldLoop sort safelist = .ok (TrimPrefix sort "-") := by
  induction safelist with
  | nil => cases h
  | cons a l ih =>
    unfold sortFieldLoop
    by_cases ha : sort = a
    · simp [ha]
    · simp only [ha, if_false]
      exact ih (by simpa [ha] using h)

theorem sortFieldLoop_of_not_mem (sort : String) (safelist : List String)
    (h : sort ∉ safelist) :
    sortFieldLoop sort safelist = .panic ("unsafe sort parameter: " ++ sort) := by
  induction safelist with
  | nil => rfl
  | cons a l ih =>
    unfold sortFieldLoop
    have ha : sort ≠ a := fun e => h (by simp [e])
    simp only [ha, if_false]
    exact ih (fun hm => h (List.mem_cons_of_mem _ hm))

theorem offset_of_valid (f : Filters) (h1 : 1 ≤ f.Page) (h2 : f.Page ≤ 1000)
    (h3 : 1 ≤ f.PageSize) (h4 : f.PageSize ≤ 10) :
    f.offset = (f.Page - 1) * f.PageSize ∧ 0 ≤ f.offset ∧ f.offset ≤ 9990 := by
  have hb1 : 0 ≤ (f.Page - 1) * f.PageSize := by
    apply Int.mul_nonneg <;> omega
  have hb2 : (f.Page - 1) * f.PageSize ≤ 999 * 10 := by
    apply Int.mul_le_mul <;> omega
  have e1 : wrapInt64 (f.Page - 1) = f.Page - 1 :=
    wrapInt64_of_range _ (by omega) (by omega)
  have e2 : wrapInt64 ((f.Page - 1) * f.PageSize) = (f.Page - 1) * f.PageSize :=
    wrapInt64_of_range _ (by omega) (by omega)
  unfold Filters.offset
  rw [e1, e2]
  exact ⟨rfl, hb1, by omega⟩

/-! ## Validation of filters -/

/-- C3: `ValidateFilters` on a fresh validator records an error for `page` exactly when
the page is not in 1..1000, for `page_size` exactly when the page size is not in 1..10,
and for `sort` exactly when the sort key is not in the safelist; it is valid exactly
when none of the three is violated, and with the safelist of `listMemesHandler` the
sort key `price` is rejected. -/
theorem C3_ValidateFilters_reports_every_violation (f : Filters) :
    ((ValidateFilters Validator.New f).hasError "page" ↔ (f.Page ≤ 0 ∨ f.Page > 1000)) ∧
    ((ValidateFilters Validator.New f).hasError "page_size" ↔
      (f.PageSize ≤ 0 ∨ f.PageSize > 10)) ∧
    ((ValidateFilters Validator.New f).hasError "sort" ↔ f.SortBy ∉ f.SortSafelist) ∧
    ((ValidateFilters Validator.New f).Valid = true ↔
      (1 ≤ f.Page ∧ f.Page ≤ 1000 ∧ 1 ≤ f.PageSize ∧ f.PageSize ≤ 10 ∧
        f.SortBy ∈ f.SortSafelist)) ∧
    (ValidateFilters Validator.New
        { f with SortBy := "price", SortSafelist := listMemesHandlerSafelist }).Valid = false ∧
    (ValidateFilters Validator.New
        { f with SortBy := "price", SortSafelist := listMemesHandlerSafelist }).hasError
      "sort" := by
  have hprice : "price" ∉ listMemesHandlerSafelist := by decide
  refine ⟨?_, ?_, ?_, Valid_ValidateFilters f, ?_, ?_⟩
  · simp only [ValidateFilters, hasError_Check, not_hasError_New, PermittedValue]
    simp
  · simp only [ValidateFilters, hasError_Check, not_hasError_New, PermittedValue]
    simp
  · simp only [ValidateFilters, hasError_Check, not_hasError_New, PermittedValue]
    simp
  · rw [← Bool.not_eq_true, Valid_ValidateFilters]
    exact fun h => hprice h.2.2.2.2
  · simp only [ValidateFilters, hasError_Check, not_hasError_New, PermittedValue]
    simp [hprice]

/-! ## The sort field and the pipeline -/

/-- C4: for filters that pass `ValidateFilters`, `sortField` returns the sort key with
one leading `-` removed instead of panicking, the pipeline is built, and with the
safelist of `listMemesHandler` the returned field is `artist`, `title` or `created`;
for a sort key outside the safelist the pipeline is never built (`sortField`
panics). -/
theorem C4_sortField_within_safelist (f : Filters) (matchDoc : BsonDoc) :
    ((ValidateFilters Validator.New f).Valid = true →
      f.sortField = .ok (TrimPrefix f.SortBy "-") ∧
      (∃ pipeline, f.GetAllAggregationPipeline matchDoc = .ok pipeline) ∧
      (f.SortSafelist = listMemesHandlerSafelist →
        TrimPrefix f.SortBy "-" ∈ ["artist", "title", "created"])) ∧
    (f.SortBy ∉ f.SortSafelist →
      f.sortField = .panic ("unsafe sort parameter: " ++ f.SortBy) ∧
      f.GetAllAggregationPipeline matchDoc = .panic ("unsafe sort parameter: " ++ f.SortBy)) := by
  constructor
  · intro hv
    have hmem := ((Valid_ValidateFilters f).mp hv).2.2.2.2
    have hs : f.sortField = .ok (TrimPrefix f.SortBy "-") :=
      sortFieldLoop_of_mem _ _ hmem
    refine ⟨hs, ?_, ?_⟩
    · simp only [Filters.GetAllAggregationPipeline, hs]
      exact ⟨_, rfl⟩
    · intro hl
      rw [hl] at hmem
      simp only [listMemesHandlerSafelist, List.mem_cons, List.mem_singleton,
        List.not_mem_nil, or_false] at hmem
      rcases hmem with h | h | h | h | h | h <;> rw [h] <;> decide
  · intro hn
    have hs : f.sortField = .panic ("unsafe sort parameter: " ++ f.SortBy) :=
      sortFieldLoop_of_not_mem _ _ hn
    exact ⟨hs, by simp only [Filters.GetAllAggregationPipeline, hs]⟩

/-- Witness for C4: the filters `page=1, page_size=5, sort=-title` of a list request. -/
theorem C4_sortField_within_safelist_witness :
    (ValidateFilters Validator.New ⟨1, 5, "-title", listMemesHandlerSafelist⟩).Valid = true ∧
    Filters.sortField ⟨1, 5, "-title", listMemesHandlerSafelist⟩ = .ok "title" ∧
    Filters.sortField ⟨1, 5, "price", listMemesHandlerSafelist⟩ =
      .panic "unsafe sort parameter: price" :=
  ⟨by decide,
   ((C4_sortField_within_safelist ⟨1, 5, "-title", listMemesHandlerSafelist⟩ []).1
      (by decide)).1,
   ((C4_sortField_within_safelist ⟨1, 5, "price", listMemesHandlerSafelist⟩ []).2
      (by decide)).1⟩

/-- C5: for filters that pass `ValidateFilters` and any match predicate, the pipeline
is the four stages `$match`, `$sort`, `$skip`, `$limit` in this order: the predicate
unchanged, the sort by the sort field (direction -1 exactly when the sort key starts
with `-`, else 1) and then by `_id` ascending, the skip `(Page - 1) * PageSize`
(computed without overflow) and the limit `PageSize`. -/
theorem C5_pipeline_stages (f : Filters) (matchDoc : BsonDoc)
    (hv : (ValidateFilters Validator.New f).Valid = true) :
    f.GetAllAggregationPipeline matchDoc = .ok
      [ [("$match", .doc matchDoc)],
        [("$sort", .doc [(TrimPrefix f.SortBy "-",
                          .int (if HasPrefix f.SortBy "-" = true then -1 else 1)),
                         ("_id", .int 1)])],
        [("$skip", .int ((f.Page - 1) * f.PageSize))],
        [("$limit", .int f.PageSize)] ] ∧
    f.sortField = .ok (TrimPrefix f.SortBy "-") ∧
    (f.sortDirection = -1 ↔ HasPrefix f.SortBy "-" = true) ∧
    (f.sortDirection = 1 ↔ HasPrefix f.SortBy "-" = false) := by
  obtain ⟨h1, h2, h3, h4, hmem⟩ := (Valid_ValidateFilters f).mp hv
  have hs : f.sortField = .ok (TrimPrefix f.SortBy "-") :=
    sortFieldLoop_of_mem _ _ hmem
  have ho := (offset_of_valid f h1 h2 h3 h4).1
  refine ⟨?_, hs, ?_, ?_⟩
  · simp only [Filters.GetAllAggregationPipeline, hs, ho, Filters.sortDirection,
      Filters.limit]
  · unfold Filters.sortDirection
    cases HasPrefix f.SortBy "-" <;> simp
  · unfold Filters.sortDirection
    cases HasPrefix f.SortBy "-" <;> simp

/-- Witness for C5: page 3 of size 5 sorted by `-created`. -/
theorem C5_pipeline_stages_witness :
    Filters.GetAllAggregationPipeline ⟨3, 5, "-created", listMemesHandlerSafelist⟩
        [("artist", .str "a")] = .ok
      [ [("$match", .doc [("artist", .str "a")])],
        [("$sort", .doc [("created", .int (-1)), ("_id", .int 1)])],
        [("$skip", .int 10)],
        [("$limit", .int 5)] ] :=
  (C5_pipeline_stages ⟨3, 5, "-created", listMemesHandlerSafelist⟩ [("artist", .str "a")]
    (by decide)).1

/-! ## Pagination metadata -/

theorem lastPage_of_range (totalCount pageSize : Int) (ht : 0 ≤ totalCount)
    (hp : 1 ≤ pageSize) (hov : totalCount + pageSize - 1 < 2 ^ 63) :
    wrapInt64 (Int.tdiv (wrapInt64 (wrapInt64 (totalCount + pageSize) - 1)) pageSize)
      = (totalCount + pageSize - 1) / pageSize := by
  have e1 : wrapInt64 (wrapInt64 (totalCount + pageSize) - 1) = totalCount + pageSize - 1 := by
    unfold wrapInt64; omega
  have h0 : 0 ≤ totalCount + pageSize - 1 := by omega
  have e2 : Int.tdiv (totalCount + pageSize - 1) pageSize
      = (totalCount + pageSize - 1) / pageSize :=
    Int.tdiv_eq_ediv h0 (by omega)
  have h3 : 0 ≤ (totalCount + pageSize - 1) / pageSize := Int.ediv_nonneg h0 (by omega)
  have h4 : (totalCount + pageSize - 1) / pageSize ≤ totalCount + pageSize - 1 :=
    Int.ediv_le_self _ h0
  rw [e1, e2]
  exact wrapInt64_of_range _ (by omega) (by omega)

theorem ceil_div_spec (totalCount pageSize : Int) (hp : 1 ≤ pageSize) :
    totalCount ≤ (totalCount + pageSize - 1) / pageSize * pageSize ∧
    ∀ n : Int, totalCount ≤ n * pageSize → (totalCount + pageSize - 1) / pageSize ≤ n := by
  have hpos : 0 < pageSize := by omega
  constructor
  · have := Int.lt_ediv_add_one_mul_self (totalCount + pageSize - 1) hpos
    rw [add_mul, one_mul] at this
    omega
  · intro n hn
    have hlt : (totalCount + pageSize - 1) / pageSize < n + 1 := by
      apply Int.ediv_lt_of_lt_mul hpos
      rw [add_mul, one_mul]
      omega
    omega

/-- C6, amended: on the zero `Metadata`, a zero `filteredCount` gives the zero
metadata whatever the other arguments are; otherwise, for `totalCount >= 0` and
`pageSize >= 1` with `totalCount + pageSize - 1` inside the 64-bit range, the result
has `CurrentPage = page`, `PageSize = pageSize`, `FirstPage = 1`,
`TotalRecords = totalCount` and `LastPage` the least `n` with
`n * pageSize >= totalCount`; 12 records at page size 5 give `LastPage = 3`. -/
theorem C6_Calculate_reference (filteredCount totalCount page pageSize : Int)
    (ht : 0 ≤ totalCount) (hp : 1 ≤ pageSize) (hov : totalCount + pageSize - 1 < 2 ^ 63) :
    (∀ n p s : Int, Metadata.zero.Calculate 0 n p s = .ok Metadata.zero) ∧
    (filteredCount ≠ 0 →
      ∃ last : Int,
        Metadata.zero.Calculate filteredCount totalCount page pageSize =
          .ok ⟨page, pageSize, 1, last, totalCount⟩ ∧
        totalCount ≤ last * pageSize ∧
        (∀ n : Int, totalCount ≤ n * pageSize → last ≤ n)) ∧
    Metadata.zero.Calculate 5 12 1 5 = .ok ⟨1, 5, 1, 3, 12⟩ := by
  refine ⟨fun n p s => by simp [Metadata.Calculate], ?_, by decide⟩
  intro hf
  refine ⟨(totalCount + pageSize - 1) / pageSize, ?_, ceil_div_spec totalCount pageSize hp⟩
  have hps : pageSize ≠ 0 := by omega
  simp only [Metadata.Calculate, hf, hps, if_false,
    lastPage_of_range totalCount pageSize ht hp hov]

/-- Witness for C6: 12 records, page 1 of size 5, a full page returned. -/
theorem C6_Calculate_reference_witness :
    ∃ last : Int,
      Metadata.zero.Calculate 5 12 1 5 = .ok ⟨1, 5, 1, last, 12⟩ ∧
      12 ≤ last * 5 ∧ (∀ n : Int, 12 ≤ n * 5 → last ≤ n) :=
  (C6_Calculate_reference 5 12 1 5 (by decide) (by decide) (by decide)).2.1 (by decide)

/-- C6, counterexample: with `totalCount = 2^63 - 1` and `pageSize = 2` the sum
`totalRecords + pageSize - 1` wraps, and `LastPage` is negative instead of the least
`n` with `n * pageSize >= totalCount`. -/
theorem C6_Calculate_overflow_counterexample :
    Metadata.zero.Calculate 1 9223372036854775807 1 2 =
      .ok ⟨1, 2, 1, -4611686018427387904, 9223372036854775807⟩ ∧
    ¬ (9223372036854775807 ≤ (-4611686018427387904 : Int) * 2) := by
  decide

/-! ## Version-guarded update -/

theorem UpdateOne_unmatched (coll : Collection) (q : UpdateFilter) (e : MongoEditMeme)
    (h : ∀ d ∈ coll, q.holds d = false) : UpdateOne coll q e = (0, coll) := by
  induction coll with
  | nil => rfl
  | cons d rest ih =>
    have hd : q.holds d = false := h d (List.mem_cons_self _ _)
    have hr := ih (fun x hx => h x (List.mem_cons_of_mem _ hx))
    simp [UpdateOne, hd, hr]

theorem UpdateOne_matched (coll : Collection) (q : UpdateFilter) (e : MongoEditMeme)
    (h : ∃ d ∈ coll, q.holds d = true) :
    ∃ before d after, coll = before ++ d :: after ∧ (∀ x ∈ before, q.holds x = false) ∧
      q.holds d = true ∧ UpdateOne coll q e = (1, before ++ e.toDocument d._id :: after) := by
  induction coll with
  | nil => obtain ⟨d, hd, _⟩ := h; cases hd
  | cons a rest ih =>
    by_cases ha : q.holds a = true
    · exact ⟨[], a, rest, rfl, (fun x hx => by cases hx), ha, by simp [UpdateOne, ha]⟩
    · have ha' : q.holds a = false := by simpa using ha
      obtain ⟨d, hd, hq⟩ := h
      have hd' : d ∈ rest := by
        rcases List.mem_cons.mp hd with rfl | hm
        · exact absurd hq ha
        · exact hm
      obtain ⟨before, d0, after, hc, hb, hq0, hu⟩ := ih ⟨d, hd', hq⟩
      refine ⟨a :: before, d0, after, by simp [hc], ?_, hq0, ?_⟩
      · intro x hx
        rcases List.mem_cons.mp hx with rfl | hm
        · exact ha'
        · exact hb x hm
      · simp [UpdateOne, ha', hu]

theorem holds_iff (q : UpdateFilter) (d : Document) :
    q.holds d = true ↔ d._id = q._id ∧ d.version = q.version := by
  simp [UpdateFilter.holds]

/-- C1: for a record with a well-formed id, `Update` on the model collection succeeds
exactly when the collection holds a document with that id whose version equals the
version of the record; otherwise it returns `ErrEditConflict` and the collection is
unchanged. -/
theorem C1_Update_succeeds_iff_version_matches (coll : Collection) (meme : Meme)
    (objID : ObjectID) (hid : ObjectIDFromHex meme.ID = some objID) :
    ((Update none coll meme).err = none ↔
      ∃ d ∈ coll, d._id = objID ∧ d.version = meme.Version) ∧
    ((¬ ∃ d ∈ coll, d._id = objID ∧ d.version = meme.Version) →
      (Update none coll meme).err = some Error.ErrEditConflict ∧
      (Update none coll meme).coll = coll) := by
  by_cases h : ∃ d ∈ coll, d._id = objID ∧ d.version = meme.Version
  · have hq : ∃ d ∈ coll, UpdateFilter.holds ⟨objID, meme.Version⟩ d = true := by
      obtain ⟨d, hd, h1, h2⟩ := h
      exact ⟨d, hd, (holds_iff _ _).mpr ⟨h1, h2⟩⟩
    obtain ⟨before, d, after, _, _, _, hu⟩ :=
      UpdateOne_matched coll ⟨objID, meme.Version⟩
        (Meme.ToEditMeme { meme with Version := wrapInt32 (meme.Version + 1) }) hq
    refine ⟨⟨fun _ => h, fun _ => ?_⟩, fun hn => absurd h hn⟩
    simp [Update, hid, hu]
  · have hq : ∀ d ∈ coll, UpdateFilter.holds ⟨objID, meme.Version⟩ d = false := by
      intro d hd
      by_contra hc
      have hc' : UpdateFilter.holds ⟨objID, meme.Version⟩ d = true := by simpa using hc
      exact h ⟨d, hd, (holds_iff _ _).mp hc'⟩
    have hu := UpdateOne_unmatched coll ⟨objID, meme.Version⟩
        (Meme.ToEditMeme { meme with Version := wrapInt32 (meme.Version + 1) }) hq
    have he : (Update none coll meme).err = some Error.ErrEditConflict := by
      simp [Update, hid, hu]
    refine ⟨⟨fun hn => ?_, fun hh => absurd hh h⟩, fun _ => ⟨he, ?_⟩⟩
    · rw [he] at hn; cases hn
    · simp [Update, hid, hu]

/-- Witness for C1: a record whose id is 24 hexadecimal digits, against a collection
that holds it at the same version. -/
theorem C1_Update_succeeds_iff_version_matches_witness :
    ObjectIDFromHex "0000000000000000000000a1" = some [0, 0, 0, 0, 0, 0, 0, 0, 0, 0, 0, 161] ∧
    (Update none [⟨[0, 0, 0, 0, 0, 0, 0, 0, 0, 0, 0, 161], "alice", 5, "cat", "QQ==", 3⟩]
      ⟨"0000000000000000000000a1", 5, "alice", "dog", "QQ==", 3⟩).err = none ∧
    (Update none [⟨[0, 0, 0, 0, 0, 0, 0, 0, 0, 0, 0, 161], "alice", 5, "cat", "QQ==", 4⟩]
      ⟨"0000000000000000000000a1", 5, "alice", "dog", "QQ==", 3⟩).err
        = some Error.ErrEditConflict :=
  ⟨by decide,
   (C1_Update_succeeds_iff_version_matches
      [⟨[0, 0, 0, 0, 0, 0, 0, 0, 0, 0, 0, 161], "alice", 5, "cat", "QQ==", 3⟩]
      ⟨"0000000000000000000000a1", 5, "alice", "dog", "QQ==", 3⟩
      [0, 0, 0, 0, 0, 0, 0, 0, 0, 0, 0, 161] (by decide)).1.mpr
     ⟨_, List.mem_singleton.mpr rfl, rfl, rfl⟩,
   ((C1_Update_succeeds_iff_version_matches
      [⟨[0, 0, 0, 0, 0, 0, 0, 0, 0, 0, 0, 161], "alice", 5, "cat", "QQ==", 4⟩]
      ⟨"0000000000000000000000a1", 5, "alice", "dog", "QQ==", 3⟩
      [0, 0, 0, 0, 0, 0, 0, 0, 0, 0, 0, 161] (by decide)).2 (by decide)).1⟩

theorem Update_of_matched (coll : Collection) (meme : Meme) (objID : ObjectID)
    (hid : ObjectIDFromHex meme.ID = some objID)
    (h : ∃ d ∈ coll, d._id = objID ∧ d.version = meme.Version) :
    ∃ before d after, coll = before ++ d :: after ∧
      (∀ x ∈ before, ¬ (x._id = objID ∧ x.version = meme.Version)) ∧
      d._id = objID ∧ d.version = meme.Version ∧
      Update none coll meme =
        ⟨none, { meme with Version := wrapInt32 (meme.Version + 1) },
          before ++
            MongoEditMeme.toDocument
              (Meme.ToEditMeme { meme with Version := wrapInt32 (meme.Version + 1) }) d._id
            :: after⟩ := by
  have hq : ∃ d ∈ coll, UpdateFilter.holds ⟨objID, meme.Version⟩ d = true := by
    obtain ⟨d, hd, h1, h2⟩ := h
    exact ⟨d, hd, (holds_iff _ _).mpr ⟨h1, h2⟩⟩
  obtain ⟨before, d, after, hc, hb, hd, hu⟩ :=
    UpdateOne_matched coll ⟨objID, meme.Version⟩
      (Meme.ToEditMeme { meme with Version := wrapInt32 (meme.Version + 1) }) hq
  have hd' := (holds_iff _ _).mp hd
  refine ⟨before, d, after, hc, ?_, hd'.1, hd'.2, by simp [Update, hid, hu]⟩
  intro x hx hh
  have := hb x hx
  rw [(holds_iff _ _).mpr hh] at this
  cases this

theorem Update_of_unmatched (coll : Collection) (meme : Meme) (objID : ObjectID)
    (hid : ObjectIDFromHex meme.ID = some objID)
    (h : ¬ ∃ d ∈ coll, d._id = objID ∧ d.version = meme.Version) :
    Update none coll meme =
      ⟨some Error.ErrEditConflict, { meme with Version := wrapInt32 (meme.Version + 1) },
        coll⟩ := by
  have hq : ∀ d ∈ coll, UpdateFilter.holds ⟨objID, meme.Version⟩ d = false := by
    intro d hd
    by_contra hc
    have hc' : UpdateFilter.holds ⟨objID, meme.Version⟩ d = true := by simpa using hc
    exact h ⟨d, hd, (holds_iff _ _).mp hc'⟩
  have hu := UpdateOne_unmatched coll ⟨objID, meme.Version⟩
      (Meme.ToEditMeme { meme with Version := wrapInt32 (meme.Version + 1) }) hq
  simp [Update, hid, hu]

theorem ToEditMeme_eq (m : Meme) :
    m.ToEditMeme = ⟨m.Artist, m.Created, m.Title, m.B64, m.Version⟩ := by
  unfold Meme.ToEditMeme MongoEditMeme.zero
  by_cases h1 : m.Artist = "" <;> by_cases h2 : m.Title = "" <;>
    by_cases h3 : m.B64 = "" <;> by_cases h4 : m.Version = 0 <;> simp [h1, h2, h3, h4]

theorem UpdateOne_at (before : List Document) (d : Document) (after : List Document)
    (q : UpdateFilter) (e : MongoEditMeme) (hb : ∀ x ∈ before, q.holds x = false)
    (hd : q.holds d = true) :
    UpdateOne (before ++ d :: after) q e = (1, before ++ e.toDocument d._id :: after) := by
  induction before with
  | nil => simp [UpdateOne, hd]
  | cons a rest ih =>
    have ha : q.holds a = false := hb a (List.mem_cons_self _ _)
    have hr := ih (fun x hx => hb x (List.mem_cons_of_mem _ hx))
    simp [UpdateOne, ha, hr]

/-- C2, amended: `Insert` stores and returns version 1 whatever version the input
carried, and a successful `Update` of a record stored at version `v` with
`1 <= v < 2^31 - 1` leaves the returned version and the stored version of that record
(the first document with the id of the record and version `v`) equal to `v + 1`; no
other document changes. -/
theorem C2_version_increments_by_one :
    (∀ (now : Int) (insertedID : ObjectID) (coll : Collection) (meme : Meme),
      (Insert none now insertedID coll meme).err = none ∧
      (Insert none now insertedID coll meme).meme.Version = 1 ∧
      ∃ d, (Insert none now insertedID coll meme).coll = coll ++ [d] ∧
        d._id = insertedID ∧ d.version = 1) ∧
    (∀ (coll : Collection) (meme : Meme),
      1 ≤ meme.Version → meme.Version < 2 ^ 31 - 1 →
      (Update none coll meme).err = none →
      (Update none coll meme).meme.Version = meme.Version + 1 ∧
      ∃ objID before d after d', ObjectIDFromHex meme.ID = some objID ∧
        coll = before ++ d :: after ∧
        (∀ x ∈ before, ¬ (x._id = objID ∧ x.version = meme.Version)) ∧
        d._id = objID ∧ d.version = meme.Version ∧
        (Update none coll meme).coll = before ++ d' :: after ∧
        d'._id = objID ∧ d'.version = meme.Version + 1) := by
  constructor
  · intro now insertedID coll meme
    refine ⟨rfl, rfl, _, rfl, rfl, ?_⟩
    simp [ToEditMeme_eq, MongoEditMeme.toDocument]
  · intro coll meme h1 h2 herr
    have hw : wrapInt32 (meme.Version + 1) = meme.Version + 1 :=
      wrapInt32_of_range _ (by omega) (by omega)
    cases hid : ObjectIDFromHex meme.ID with
    | none => simp [Update, hid] at herr
    | some objID =>
      by_cases hmatch : ∃ d ∈ coll, d._id = objID ∧ d.version = meme.Version
      · obtain ⟨before, d, after, hc, hb, hi, hv, hu⟩ :=
          Update_of_matched coll meme objID hid hmatch
        rw [hu]
        refine ⟨hw, objID, before, d, after, _, rfl, hc, hb, hi, hv, rfl, hi, ?_⟩
        simp [ToEditMeme_eq, MongoEditMeme.toDocument, hw]
      · rw [Update_of_unmatched coll meme objID hid hmatch] at herr
        cases herr

/-- Witness for C2: of two records stored at version 3, the one the update names is
stored at version 4 afterwards and the other is unchanged. -/
theorem C2_version_increments_by_one_witness :
    (Update none
        [⟨[0, 0, 0, 0, 0, 0, 0, 0, 0, 0, 0, 160], "bob", 5, "fox", "QQ==", 3⟩,
         ⟨[0, 0, 0, 0, 0, 0, 0, 0, 0, 0, 0, 161], "alice", 5, "cat", "QQ==", 3⟩]
        ⟨"0000000000000000000000a1", 5000000, "alice", "dog", "QQ==", 3⟩).coll =
      [⟨[0, 0, 0, 0, 0, 0, 0, 0, 0, 0, 0, 160], "bob", 5, "fox", "QQ==", 3⟩,
       ⟨[0, 0, 0, 0, 0, 0, 0, 0, 0, 0, 0, 161], "alice", 5, "dog", "QQ==", 3 + 1⟩] ∧
    (Update none
        [⟨[0, 0, 0, 0, 0, 0, 0, 0, 0, 0, 0, 160], "bob", 5, "fox", "QQ==", 3⟩,
         ⟨[0, 0, 0, 0, 0, 0, 0, 0, 0, 0, 0, 161], "alice", 5, "cat", "QQ==", 3⟩]
        ⟨"0000000000000000000000a1", 5000000, "alice", "dog", "QQ==", 3⟩).meme.Version
      = 3 + 1 :=
  ⟨by decide,
   (C2_version_increments_by_one.2
      [⟨[0, 0, 0, 0, 0, 0, 0, 0, 0, 0, 0, 160], "bob", 5, "fox", "QQ==", 3⟩,
       ⟨[0, 0, 0, 0, 0, 0, 0, 0, 0, 0, 0, 161], "alice", 5, "cat", "QQ==", 3⟩]
      ⟨"0000000000000000000000a1", 5000000, "alice", "dog", "QQ==", 3⟩
      (by decide) (by decide) (by decide)).1⟩

/-- C2, counterexample: a record stored at version `2^31 - 1` is updated with
success, and the `int32` increment wraps: the stored and the returned version are
`-2^31`, not `2^31`. -/
theorem C2_version_overflow_counterexample :
    Update none
        [⟨[0, 0, 0, 0, 0, 0, 0, 0, 0, 0, 0, 161], "alice", 5, "cat", "QQ==", 2147483647⟩]
        ⟨"0000000000000000000000a1", 5000000, "alice", "dog", "QQ==", 2147483647⟩ =
      ⟨none, ⟨"0000000000000000000000a1", 5000000, "alice", "dog", "QQ==", -2147483648⟩,
        [⟨[0, 0, 0, 0, 0, 0, 0, 0, 0, 0, 0, 161], "alice", 5, "dog", "QQ==", -2147483648⟩]⟩ ∧
    (-2147483648 : Int) ≠ 2147483647 + 1 := by
  decide

/-! ## Field merge on update -/

theorem Valid_ValidateMeme (meme : Meme) :
    (ValidateMeme Validator.New meme).Valid = true →
      meme.Artist ≠ "" ∧ meme.Title ≠ "" ∧ meme.B64 ≠ "" := by
  simp only [ValidateMeme, Valid_Check]
  simp only [Validator.New, Validator.Valid, List.isEmpty_nil, Bool.true_and, Bool.and_eq_true,
    decide_eq_true_eq]
  rintro ⟨⟨⟨⟨h1, _⟩, h3⟩, _⟩, h5⟩
  exact ⟨h1, h3, h5⟩

theorem FindOne_some (coll : Collection) (objID : ObjectID) (d : Document)
    (h : FindOne coll objID = some d) :
    d._id = objID ∧ ∃ before after, coll = before ++ d :: after ∧
      ∀ x ∈ before, x._id ≠ objID := by
  obtain ⟨hp, before, after, hc, hb⟩ := List.find?_eq_some.mp h
  refine ⟨by simpa using hp, before, after, hc, ?_⟩
  intro x hx
  simpa using hb x hx

theorem Update_at (before : List Document) (d : Document) (after : List Document)
    (id : String) (created : Int) (artist title b64 : String)
    (hid : ObjectIDFromHex id = some d._id) (hb : ∀ x ∈ before, x._id ≠ d._id) :
    Update none (before ++ d :: after) ⟨id, created, artist, title, b64, d.version⟩ =
      ⟨none, ⟨id, created, artist, title, b64, wrapInt32 (d.version + 1)⟩,
        before ++ ⟨d._id, artist, created / 1000000, title, b64,
          wrapInt32 (d.version + 1)⟩ :: after⟩ := by
  have hq : ∀ x ∈ before, UpdateFilter.holds ⟨d._id, d.version⟩ x = false := by
    intro x hx
    simp [UpdateFilter.holds, hb x hx]
  have hd : UpdateFilter.holds ⟨d._id, d.version⟩ d = true := by
    simp [UpdateFilter.holds]
  simp [Update, hid, UpdateOne_at before d after _ _ hq hd, ToEditMeme_eq,
    MongoEditMeme.toDocument]

/-- C9, amended: `Update` writes the artist, title and payload of the record it is
given over the stored values (a successful `Update` stores exactly the fields of the
record, at the next version); the field-level merge is made by `updateMemeHandler`,
its caller: on a successful update request each field the request supplies replaces
the stored value, each field it does not supply keeps the value it had in the store,
and no stored field is left empty. -/
theorem C9_update_merges_supplied_fields :
    (∀ (coll : Collection) (meme : Meme), (Update none coll meme).err = none →
      ∃ objID before d after, ObjectIDFromHex meme.ID = some objID ∧
        coll = before ++ d :: after ∧
        (∀ x ∈ before, ¬ (x._id = objID ∧ x.version = meme.Version)) ∧
        d._id = objID ∧ d.version = meme.Version ∧
        (Update none coll meme).coll =
          before ++ ⟨objID, meme.Artist, meme.Created / 1000000, meme.Title, meme.B64,
            wrapInt32 (meme.Version + 1)⟩ :: after) ∧
    (∀ (coll : Collection) (id expectedVersion : String) (input : UpdateInput)
        (meme : Meme) (coll' : Collection),
      updateMemeHandler none none coll (some id) expectedVersion (.ok input)
        = (.ok meme, coll') →
      ∃ objID before d after, ObjectIDFromHex id = some objID ∧
        coll = before ++ d :: after ∧ (∀ x ∈ before, x._id ≠ objID) ∧ d._id = objID ∧
        coll' = before ++ ⟨objID, input.Artist.getD d.artist, d.created,
          input.Title.getD d.title, input.Meme.getD d.b64,
          wrapInt32 (d.version + 1)⟩ :: after ∧
        input.Artist.getD d.artist ≠ "" ∧ input.Title.getD d.title ≠ "" ∧
        input.Meme.getD d.b64 ≠ "") := by
  constructor
  · intro coll meme herr
    cases hid : ObjectIDFromHex meme.ID with
    | none => simp [Update, hid] at herr
    | some objID =>
      by_cases hmatch : ∃ d ∈ coll, d._id = objID ∧ d.version = meme.Version
      · obtain ⟨before, d, after, hc, hb, hi, hv, hu⟩ :=
          Update_of_matched coll meme objID hid hmatch
        refine ⟨objID, before, d, after, rfl, hc, hb, hi, hv, ?_⟩
        rw [hu]
        simp [ToEditMeme_eq, MongoEditMeme.toDocument, hi]
      · rw [Update_of_unmatched coll meme objID hid hmatch] at herr
        cases herr
  · intro coll id expectedVersion input meme coll' h
    cases hid : ObjectIDFromHex id with
    | none => simp [updateMemeHandler, Get, hid] at h
    | some objID =>
      cases hf : FindOne coll objID with
      | none => simp [updateMemeHandler, Get, hid, hf] at h
      | some d =>
        obtain ⟨hdi, before, after, hc, hb⟩ := FindOne_some coll objID d hf
        have hget : Get none coll id = .ok { d.toMeme with ID := id } := by
          simp [Get, hid, hf]
        have hmul : d.created * 1000000 / 1000000 = d.created :=
          Int.mul_ediv_cancel _ (by decide)
        refine ⟨objID, before, d, after, rfl, hc, hb, hdi, ?_⟩
        subst hdi
        obtain ⟨a, t, p⟩ := input
        simp only [updateMemeHandler, hget] at h
        split at h
        · simp at h
        · split at h
          · simp at h
          · rename_i hvalid
            have hne := Valid_ValidateMeme _ (by simpa using hvalid)
            rw [hc] at h
            cases a <;> cases t <;> cases p <;>
              simp [Document.toMeme, hmul,
                fun c a t p => Update_at before d after id c a t p hid hb] at h hne ⊢ <;>
              exact ⟨h.2.symm, hne⟩

/-- Witness for C9: an update request that carries only the title `dog`, for a record
stored as `alice`, `cat`, `QQ==` at version 1. -/
theorem C9_update_merges_supplied_fields_witness :
    updateMemeHandler none none
        [⟨[0, 0, 0, 0, 0, 0, 0, 0, 0, 0, 0, 161], "alice", 5, "cat", "QQ==", 1⟩]
        (some "0000000000000000000000a1") "" (.ok ⟨none, some "dog", none⟩) =
      (.ok ⟨"0000000000000000000000a1", 5000000, "alice", "dog", "QQ==", 2⟩,
        [⟨[0, 0, 0, 0, 0, 0, 0, 0, 0, 0, 0, 161], "alice", 5, "dog", "QQ==", 2⟩]) ∧
    ∃ objID before d after, ObjectIDFromHex "0000000000000000000000a1" = some objID ∧
      [(⟨[0, 0, 0, 0, 0, 0, 0, 0, 0, 0, 0, 161], "alice", 5, "cat", "QQ==", 1⟩ : Document)]
        = before ++ d :: after ∧
      (∀ x ∈ before, x._id ≠ objID) ∧ d._id = objID ∧
      [(⟨[0, 0, 0, 0, 0, 0, 0, 0, 0, 0, 0, 161], "alice", 5, "dog", "QQ==", 2⟩ : Document)]
        = before ++ ⟨objID, (none : Option String).getD d.artist, d.created,
            (some "dog").getD d.title, (none : Option String).getD d.b64,
            wrapInt32 (d.version + 1)⟩ :: after ∧
      (none : Option String).getD d.artist ≠ "" ∧ (some "dog").getD d.title ≠ "" ∧
      (none : Option String).getD d.b64 ≠ "" :=
  ⟨by decide,
   C9_update_merges_supplied_fields.2
     [⟨[0, 0, 0, 0, 0, 0, 0, 0, 0, 0, 0, 161], "alice", 5, "cat", "QQ==", 1⟩]
     "0000000000000000000000a1" "" ⟨none, some "dog", none⟩
     ⟨"0000000000000000000000a1", 5000000, "alice", "dog", "QQ==", 2⟩
     [⟨[0, 0, 0, 0, 0, 0, 0, 0, 0, 0, 0, 161], "alice", 5, "dog", "QQ==", 2⟩]
     (by decide)⟩

/-- C9, counterexample: a record with empty `Artist` and `B64`, passed to `Update` at
the current version, succeeds and the stored `artist` and `b64` become empty instead
of keeping `alice` and `QQ==`; `ValidateMeme` rejects this record, so
`updateMemeHandler` never passes it on. -/
theorem C9_Update_empty_fields_counterexample :
    Update none
        [⟨[0, 0, 0, 0, 0, 0, 0, 0, 0, 0, 0, 161], "alice", 5, "cat", "QQ==", 1⟩]
        ⟨"0000000000000000000000a1", 5000000, "", "dog", "", 1⟩ =
      ⟨none, ⟨"0000000000000000000000a1", 5000000, "", "dog", "", 2⟩,
        [⟨[0, 0, 0, 0, 0, 0, 0, 0, 0, 0, 0, 161], "", 5, "dog", "", 2⟩]⟩ ∧
    ("" : String) ≠ "alice" ∧ ("" : String) ≠ "QQ==" ∧
    (ValidateMeme Validator.New
      ⟨"0000000000000000000000a1", 5000000, "", "dog", "", 1⟩).Valid = false := by
  decide

/-! ## Random sample -/

/-- C10, the code on an empty collection: the sample query succeeds with no document
and `GetRandom` panics on `memes[0]` instead of returning `ErrDocNotFound`; on a
collection that is not empty it returns a sampled document and no error. -/
theorem C10_GetRandom_empty_panics :
    (∀ pick : Nat, GetRandom none [] pick =
      .panic "runtime error: index out of range [0] with length 0") ∧
    (∀ (d : Document) (rest : Collection) (pick : Nat),
      ∃ m, GetRandom none (d :: rest) pick = .ok (.ok m) ∧
        m ∈ (d :: rest).map Document.toMeme) := by
  constructor
  · intro pick
    simp [GetRandom, sample]
  · intro d rest pick
    have hlt : pick % (d :: rest).length < (d :: rest).length :=
      Nat.mod_lt _ (by simp)
    have hget : (d :: rest)[pick % (d :: rest).length]? =
        some ((d :: rest)[pick % (d :: rest).length]) := List.getElem?_eq_getElem hlt
    refine ⟨Document.toMeme ((d :: rest)[pick % (d :: rest).length]), ?_, ?_⟩
    · simp only [GetRandom, sample, hget, Option.toList, List.map]
    · exact List.mem_map_of_mem _ (List.getElem_mem _)

/-! ## The filter of `GetAll` -/

theorem GetAllFilter_eq (artist title : String) :
    GetAllFilter artist title =
      (if artist ≠ "" then [("artist", Bson.str artist)] else []) ++
      (if title ≠ "" then [("title", Bson.doc [("$regex", Bson.regex title "i")])] else []) := by
  unfold GetAllFilter
  by_cases ha : artist = "" <;> by_cases ht : title = "" <;>
    simp [ha, ht, BsonDoc.set]

/-- C7: the predicate of `GetAllFilter` has an entry for `artist` exactly when `artist`
is not empty, and it is equality with `artist`; it has an entry for `title` exactly
when `title` is not empty, and it is the `$regex` condition on `title`; it has no
other entry; with both empty it is the empty predicate, which every document
matches, and with only `artist` given a document matches exactly when its artist
equals `artist`. -/
theorem C7_GetAllFilter_constraints (fold : Char → Char) (artist title : String) :
    ((∃ c, ("artist", c) ∈ GetAllFilter artist title) ↔ artist ≠ "") ∧
    (∀ c, ("artist", c) ∈ GetAllFilter artist title → c = Bson.str artist) ∧
    ((∃ c, ("title", c) ∈ GetAllFilter artist title) ↔ title ≠ "") ∧
    (∀ c, ("title", c) ∈ GetAllFilter artist title →
      c = Bson.doc [("$regex", Bson.regex title "i")]) ∧
    (∀ k c, (k, c) ∈ GetAllFilter artist title → k = "artist" ∨ k = "title") ∧
    GetAllFilter "" "" = [] ∧
    (∀ d : Document, matchesFilter fold d (GetAllFilter "" "") = some true) ∧
    (artist ≠ "" → ∀ d : Document,
      matchesFilter fold d (GetAllFilter artist "") = some (decide (d.artist = artist))) := by
  rw [GetAllFilter_eq]
  have hne : ("artist" : String) ≠ "title" := by decide
  refine ⟨?_, ?_, ?_, ?_, ?_, rfl, fun d => rfl, ?_⟩
  · by_cases ha : artist = "" <;> by_cases ht : title = "" <;> simp [ha, ht, hne]
  · by_cases ha : artist = "" <;> by_cases ht : title = "" <;> simp [ha, ht, hne]
  · by_cases ha : artist = "" <;> by_cases ht : title = "" <;> simp [ha, ht, hne, hne.symm]
  · by_cases ha : artist = "" <;> by_cases ht : title = "" <;> simp [ha, ht, hne, hne.symm]
  · intro k c h
    rcases List.mem_append.mp h with h | h
    · by_cases ha : artist = ""
      · simp [ha] at h
      · simp only [ne_eq, ha, not_false_eq_true, if_true, List.mem_singleton,
          Prod.mk.injEq] at h
        exact Or.inl h.1
    · by_cases ht : title = ""
      · simp [ht] at h
      · simp only [ne_eq, ht, not_false_eq_true, if_true, List.mem_singleton,
          Prod.mk.injEq] at h
        exact Or.inr h.1
  · intro ha d
    rw [GetAllFilter_eq]
    simp [ha, matchesFilter, Document.field, matchesCondition]

/-- Witness for C7: with only the artist `alice` given, a document by `alice` matches
and the predicate has no entry for `title`. -/
theorem C7_GetAllFilter_constraints_witness :
    matchesFilter Char.toLower ⟨[], "alice", 0, "cat", "QQ==", 1⟩ (GetAllFilter "alice" "") =
      some (decide ("alice" = "alice")) ∧
    ¬ ∃ c, ("title", c) ∈ GetAllFilter "alice" "" :=
  ⟨(C7_GetAllFilter_constraints Char.toLower "alice" "").2.2.2.2.2.2.2 (by decide)
      ⟨[], "alice", 0, "cat", "QQ==", 1⟩,
   fun h => (C7_GetAllFilter_constraints Char.toLower "alice" "").2.2.1.mp h rfl⟩

/-! ## The title condition -/

theorem parseRegex_of_plain (t : List Char) (h : ∀ c ∈ t, c ∉ regexMeta ∧ c.toNat ≠ 0) :
    parseRegex t = some (t.map RegexAtom.lit) := by
  induction t with
  | nil => rfl
  | cons c rest ih =>
    have hc := h c (List.mem_cons_self _ _)
    have hdot : c ≠ '.' := fun e => hc.1 (by rw [e]; decide)
    have hr := ih (fun x hx => h x (List.mem_cons_of_mem _ hx))
    simp [parseRegex, hdot, hc.1, hc.2, hr]

theorem matchHere_lit_iff (fold : Char → Char) (t s : List Char) :
    matchHere fold true (t.map RegexAtom.lit) s = true ↔ t.map fold <+: s.map fold := by
  induction t generalizing s with
  | nil => simp [matchHere]
  | cons c rest ih =>
    cases s with
    | nil => simp [matchHere]
    | cons d ds =>
      simp only [List.map_cons, matchHere, RegexAtom.accepts, if_true, Bool.and_eq_true,
        beq_iff_eq, ih ds, List.cons_prefix_cons]

theorem searchFrom_lit_iff (fold : Char → Char) (t s : List Char) :
    searchFrom fold true (t.map RegexAtom.lit) s = true ↔ t.map fold <:+: s.map fold := by
  induction s with
  | nil =>
    simp only [searchFrom, matchHere_lit_iff, List.map_nil, List.prefix_nil, List.infix_nil]
  | cons d ds ih =>
    simp only [searchFrom, Bool.or_eq_true, matchHere_lit_iff, ih, List.map_cons,
      List.infix_cons_iff]

/-- C8, amended: for a non-empty title text `t` without a regular-expression
metacharacter (and without a NUL character), the title condition of `GetAllFilter`
matches a document titled `s` exactly when `s` contains `t` at some position,
ignoring letter case; `foo` matches `xFooBar` and does not match `bar`. -/
theorem C8_title_matches_substring (fold : Char → Char) (t : String) (d : Document)
    (hne : t ≠ "") (hplain : plainText t) :
    (∃ b : Bool, matchesFilter fold d (GetAllFilter "" t) = some b ∧
      (b = true ↔ containsIgnoreCase fold d.title t)) ∧
    matchesFilter Char.toLower ⟨[], "", 0, "xFooBar", "", 1⟩ (GetAllFilter "" "foo")
      = some true ∧
    matchesFilter Char.toLower ⟨[], "", 0, "bar", "", 1⟩ (GetAllFilter "" "foo")
      = some false := by
  refine ⟨⟨searchFrom fold true (t.toList.map RegexAtom.lit) d.title.toList, ?_, ?_⟩,
    by decide, by decide⟩
  · have hp : parseRegex t.data = some (t.data.map RegexAtom.lit) :=
      parseRegex_of_plain t.toList hplain
    rw [GetAllFilter_eq]
    simp [hne, matchesFilter, Document.field, matchesCondition, regexSearch, hp]
  · exact searchFrom_lit_iff fold _ _

/-- Witness for C8: the title text `foo` against the stored title `xFooBar`. -/
theorem C8_title_matches_substring_witness :
    ∃ b : Bool,
      matchesFilter Char.toLower ⟨[], "", 0, "xFooBar", "", 1⟩ (GetAllFilter "" "foo")
        = some b ∧
      (b = true ↔ containsIgnoreCase Char.toLower "xFooBar" "foo") :=
  (C8_title_matches_substring Char.toLower "foo" ⟨[], "", 0, "xFooBar", "", 1⟩ (by decide)
    (by unfold plainText; decide)).1

/-- C8, counterexample: the title text `.` is read as a regular expression and matches
the stored title `bar`, which does not contain `.`. -/
theorem C8_title_pattern_counterexample :
    matchesFilter Char.toLower ⟨[], "", 0, "bar", "", 1⟩ (GetAllFilter "" ".") = some true ∧
    ¬ containsIgnoreCase Char.toLower "bar" "." := by
  constructor
  · decide
  · unfold containsIgnoreCase
    decide

end Memebase
